import Mathlib

/-!
Verification of the tournament bracket engine of the league-management app
(`src/components/lib/tournaments.ts`).

The tournament engine is embedded shallowly:

* Firestore documents become Lean structures (`Match`, `MemberRec`, `League`).
  Fields not consulted by any bracket/standings logic (ids, timestamps,
  display names) are omitted; optional / nullable TypeScript fields become
  `Option`.
* Firestore queries (`where('leagueId'==...)`, `where('status'=='completed')`)
  become: the functions receive the per-league record lists as arguments, and
  status filters are explicit `List.filter`s, exactly as the queries select.
* JavaScript numbers that are used as integers (rounds, match numbers,
  counts) become `Nat`; the win-rate percentage, a genuine fraction, becomes
  `ℚ` (exact arithmetic in place of IEEE doubles).
* `Array.prototype.sort` (a stable comparator sort) becomes
  `List.insertionSort` (also a stable comparator sort, and kernel-computable)
  applied to the boolean counterpart of the source comparator.
* The `Math.random()` shuffle is modelled by passing the shuffled list as an
  explicit argument; theorems that depend on it quantify over every
  permutation of the member list.
* The `while (currentRoundMatches > 1)` placeholder loop becomes a
  structurally recursive function with an explicit fuel argument; since the
  advancing count strictly decreases at each iteration, fuel equal to the
  initial advancing count is always sufficient (proved below as
  `placeholderRounds_fuel_irrelevant`), so the embedding computes exactly
  what the loop computes.
* Thrown errors become an `Except GenError` result; the source performs all
  its Firestore writes only after every check has passed, so an error result
  corresponds to an unchanged match store.
-/

namespace Tournaments

/-- Type `MatchStatus` from tournaments.ts: `'pending' | 'in_progress' | 'completed'`. -/
inductive MatchStatus where
  | pending
  | in_progress
  | completed
deriving DecidableEq, Repr

/-- Type `MatchResult` from tournaments.ts: optional scores and optional winner id. -/
structure MatchResult where
  player1Score : Option ℚ := none
  player2Score : Option ℚ := none
  winnerId : Option String := none
deriving DecidableEq, Repr

/-- The persisted `Match` record (tournaments.ts `Match` type / the documents
written by `generateBracketMatches`).  `player1Id` is nullable in practice
(placeholder matches store `null`), hence `Option String` for both player
slots.  The id, leagueId and timestamp fields are not consulted by the
bracket logic and are omitted. -/
structure Match where
  round : Nat
  matchNumber : Nat
  player1Id : Option String := none
  player2Id : Option String := none
  status : MatchStatus := .pending
  result : Option MatchResult := none
deriving DecidableEq, Repr

/-- Type `TournamentBracket` from tournaments.ts.  (`matches` is reserved syntax in
Lean, so the field is called `matchList`.) -/
structure TournamentBracket where
  matchList : List Match
  rounds : Nat
  currentRound : Nat
deriving DecidableEq, Repr

/-- The boolean comparator used by `getTournamentBracket`'s sort:
`if (a.round !== b.round) return a.round - b.round; return a.matchNumber - b.matchNumber`,
read as "a comes no later than b". -/
def bracketLE (a b : Match) : Bool :=
  if a.round ≠ b.round then a.round < b.round else a.matchNumber ≤ b.matchNumber

/-- Function `getTournamentBracket` from tournaments.ts, lines 103-148.  The argument
is the list of the league's matches (the result of the
`where('leagueId','==',leagueId)` query).

* `rounds := Math.max(...matches.map(m => m.round || 0), 0)` is the fold of
  `max` with initial value `0` (`|| 0` is the identity on `Nat`).
* `currentRound := Math.min(...incomplete.map(round), rounds)` is the fold of
  `min` over the incomplete matches' rounds with initial value `rounds`.
* the returned `currentRound` applies the `|| 1` fallback. -/
def getTournamentBracket (ms : List Match) : Option TournamentBracket :=
  if ms.length = 0 then
    none
  else
    let rounds := (ms.map Match.round).foldr max 0
    let currentRound :=
      ((ms.filter fun m => m.status ≠ .completed).map Match.round).foldr min rounds
    some
      { matchList := List.insertionSort (fun a b => bracketLE a b = true) ms
        rounds := rounds
        currentRound := if currentRound = 0 then 1 else currentRound }

/-- A `leagueMembers` document as consumed by the bracket engine: only the
`userId` field is read by generation and standings. -/
structure MemberRec where
  userId : String
deriving DecidableEq, Repr

/-- The fields of a `leagues` document consulted by `generateBracketMatches`. -/
structure League where
  ownerId : String
  admins : List String
  tournamentFormat : String
deriving DecidableEq, Repr

/-- The distinct errors thrown by `generateBracketMatches`, in source order. -/
inductive GenError where
  | notSignedIn
  | leagueNotFound
  | notAuthorized
  | unsupportedFormat
  | alreadyGenerated
  | insufficientParticipants
deriving DecidableEq, Repr

/-- The round-1 paired matches, tournaments.ts lines 244-258: for
`i < firstRoundMatches = floor(n/2)`, `shuffled[2i]` vs `shuffled[2i+1]`,
match numbers `1, 2, ...`, status pending. -/
def firstRoundPaired (shuffled : List MemberRec) : List Match :=
  (List.range (shuffled.length / 2)).map fun i =>
    { round := 1
      matchNumber := i + 1
      player1Id := some (shuffled.getD (2 * i) ⟨""⟩).userId
      player2Id := some (shuffled.getD (2 * i + 1) ⟨""⟩).userId
      status := .pending
      result := none }

/-- The round-1 bye matches, tournaments.ts lines 263-283: for each of the
`byes = n - 2*floor(n/2)` leftover participants, a match with `player2Id`
null, already completed, the lone player the winner with scores 1-0.  Match
numbers continue after the paired matches. -/
def byeMatches (shuffled : List MemberRec) : List Match :=
  let firstRoundMatches := shuffled.length / 2
  let byes := shuffled.length - firstRoundMatches * 2
  (List.range byes).map fun i =>
    { round := 1
      matchNumber := firstRoundMatches + 1 + i
      player1Id := some (shuffled.getD (firstRoundMatches * 2 + i) ⟨""⟩).userId
      player2Id := none
      status := .completed
      result := some
        { winnerId := some (shuffled.getD (firstRoundMatches * 2 + i) ⟨""⟩).userId
          player1Score := some 1
          player2Score := some 0 } }

/-- The placeholder loop of tournaments.ts lines 288-315:
`while (currentRoundMatches > 1)`, create `ceil(currentRoundMatches / 2)`
two-null-slot pending matches numbered from 1 for the current round, then
ceil-halve the advancing count and move to the next round.

The while loop is embedded with an explicit fuel argument as the recursion
measure; each iteration strictly decreases `advancing`, so any
`fuel ≥ advancing` computes the loop exactly
(`placeholderRounds_fuel_irrelevant` below). -/
def placeholderRounds (fuel advancing round : Nat) : List Match :=
  match fuel with
  | 0 => []
  | fuel + 1 =>
    if 1 < advancing then
      ((List.range ((advancing + 1) / 2)).map fun i =>
        { round := round
          matchNumber := i + 1
          player1Id := none
          player2Id := none
          status := .pending
          result := (none : Option MatchResult) })
      ++ placeholderRounds fuel ((advancing + 1) / 2) (round + 1)
    else []

/-- The full list `matchesToCreate` built by `generateBracketMatches`
(tournaments.ts lines 238-315) from the shuffled member list: round-1 paired
matches, then byes, then — only for single elimination — the placeholder
rounds starting from `advancingCount = firstRoundMatches + byes` at round 2. -/
def buildMatches (tournamentFormat : String) (shuffled : List MemberRec) : List Match :=
  let firstRoundMatches := shuffled.length / 2
  let byes := shuffled.length - firstRoundMatches * 2
  let advancing := firstRoundMatches + byes
  firstRoundPaired shuffled ++ byeMatches shuffled ++
    (if tournamentFormat = "single_elimination" then
      placeholderRounds advancing advancing 2
    else [])

/-- Function `generateBracketMatches` from tournaments.ts, lines 162-330.

Arguments stand for the values the source obtains from its environment:
`currentUid` for `auth.currentUser` (`none` = not signed in), `league` for
the league document (`none` = missing), `store` for the league's existing
`tournamentMatches` documents, `members` for the active `leagueMembers`
query result, and `shuffled` for the output of the `Math.random()` shuffle
of `members` (an arbitrary permutation).

All Firestore writes happen after the last check, so the embedding returns
the new match store on success (`store` is necessarily empty then, and the
generated matches are appended to it) and leaves the store unchanged on any
error.

The source's local `numRounds = Math.ceil(Math.log2(numParticipants))`
(line 230) is never read afterwards — the actual number of rounds is
produced by the placeholder loop — so that dead floating-point computation
is not part of the embedding. -/
def generateBracketMatches (currentUid : Option String) (league : Option League)
    (store : List Match) (members shuffled : List MemberRec) :
    Except GenError (List Match) :=
  match currentUid with
  | none => .error .notSignedIn
  | some uid =>
    match league with
    | none => .error .leagueNotFound
    | some lg =>
      if ¬(lg.ownerId = uid ∨ uid ∈ lg.admins) then
        .error .notAuthorized
      else if lg.tournamentFormat ≠ "single_elimination" ∧
          lg.tournamentFormat ≠ "double_elimination" then
        .error .unsupportedFormat
      else if 0 < store.length then
        .error .alreadyGenerated
      else if members.length < 2 then
        .error .insufficientParticipants
      else
        .ok (store ++ buildMatches lg.tournamentFormat shuffled)

/-- A standings row: the member record augmented with `wins`, `losses`,
`winRate` (tournaments.ts lines 386-391). -/
structure Standing where
  userId : String
  wins : Nat
  losses : Nat
  winRate : ℚ
deriving DecidableEq, Repr

/-- The optional-chaining access `m.result?.winnerId`. -/
def matchWinner (m : Match) : Option String :=
  m.result.bind MatchResult.winnerId

/-- The boolean comparator of the standings sort (tournaments.ts lines
396-401): first descending by wins (`b.wins - a.wins`), ties descending by
win rate (`b.winRate - a.winRate`), read as "a comes no later than b". -/
def standingLE (a b : Standing) : Bool :=
  if a.wins ≠ b.wins then b.wins < a.wins else b.winRate ≤ a.winRate

/-- Function `getTournamentStandings` from tournaments.ts, lines 344-402.  `members`
is the league's active-member query result; `allMatches` the league's match
documents, of which the source's query keeps only the completed ones
(`where('status','==','completed')`).

Per member: `wins` counts kept matches with `result?.winnerId` equal to the
member, `losses` counts kept matches where the member is a player, is not
the winner, and the match is completed (the status test is redundant after
the query but is kept from the source); `winRate` is
`wins / (wins + losses) * 100` when any games were played, else 0.  The
result is sorted by `standingLE`. -/
def getTournamentStandings (members : List MemberRec) (allMatches : List Match) :
    List Standing :=
  let completed := allMatches.filter fun m => m.status = .completed
  let standings := members.map fun member =>
    let wins := (completed.filter fun m => matchWinner m = some member.userId).length
    let losses := (completed.filter fun m =>
      (m.player1Id = some member.userId ∨ m.player2Id = some member.userId) ∧
        matchWinner m ≠ some member.userId ∧ m.status = .completed).length
    { userId := member.userId
      wins := wins
      losses := losses
      winRate := if 0 < wins + losses then (wins : ℚ) / ((wins : ℚ) + losses) * 100 else 0 }
  List.insertionSort (fun a b => standingLE a b = true) standings

/-! ## Specification-side definitions

These are written from the spec's words, independently of the source, to be
compared with the embedded code. -/

/-- Spec: "maximum round number across all matches". -/
def maxRound (ms : List Match) : Nat :=
  (ms.map Match.round).foldr max 0

/-- Spec: the `currentRound` value of §4.3 — the minimum round number among
matches whose status is not `completed`; if no such match exists, `rounds`
(the maximum round); and 1 if the value so computed is zero. -/
def specCurrentRound (ms : List Match) : Nat :=
  let c :=
    match (ms.filter fun m => m.status ≠ .completed).map Match.round with
    | [] => maxRound ms
    | r :: rs => rs.foldr min r
  if c = 0 then 1 else c

/-- Spec: "wins: count of completed matches where this participant is
`result.winnerId`". -/
def specWins (uid : String) (ms : List Match) : Nat :=
  (ms.filter fun m => m.status = .completed ∧ matchWinner m = some uid).length

/-- Spec: "losses: count of completed matches where this participant appears
as `player1Id` or `player2Id`, the match is completed, and they are not the
winner". -/
def specLosses (uid : String) (ms : List Match) : Nat :=
  (ms.filter fun m => m.status = .completed ∧
    (m.player1Id = some uid ∨ m.player2Id = some uid) ∧
    matchWinner m ≠ some uid).length

/-- Spec: "`winRate`: `wins / (wins + losses) * 100` if `wins + losses > 0`,
else 0". -/
def specWinRate (wins losses : Nat) : ℚ :=
  if 0 < wins + losses then (wins : ℚ) / ((wins : ℚ) + losses) * 100 else 0

/-- The standings row the spec prescribes for one member. -/
def specStanding (ms : List Match) (member : MemberRec) : Standing :=
  { userId := member.userId
    wins := specWins member.userId ms
    losses := specLosses member.userId ms
    winRate := specWinRate (specWins member.userId ms) (specLosses member.userId ms) }

/-- The number of completed matches in which `uid` appears as `player1Id` or
`player2Id` (the bound in the spec's standings invariant). -/
def completedAppearances (uid : String) (ms : List Match) : Nat :=
  (ms.filter fun m => m.status = .completed ∧
    (m.player1Id = some uid ∨ m.player2Id = some uid)).length

/-- All round-1 player slots of a match list: for each round-1 match, its
non-null `player1Id` and `player2Id` entries, in match order. -/
def round1Slots (ms : List Match) : List String :=
  (ms.filter fun m => m.round = 1).flatMap fun m =>
    m.player1Id.toList ++ m.player2Id.toList

/-- The spec's §4.3 sort key, as a relation: ascending by the pair
`(round, matchNumber)`. -/
def bracketOrder (a b : Match) : Prop :=
  a.round < b.round ∨ (a.round = b.round ∧ a.matchNumber ≤ b.matchNumber)

/-- The spec's §4.4 sort order, as a relation: descending by `wins`, ties
broken by descending `winRate`. -/
def standingOrder (a b : Standing) : Prop :=
  b.wins < a.wins ∨ (a.wins = b.wins ∧ b.winRate ≤ a.winRate)

/-! ## Concrete sample data, used by the witness theorems -/

def sampleMembers : List MemberRec :=
  [⟨"p1"⟩, ⟨"p2"⟩, ⟨"p3"⟩, ⟨"p4"⟩, ⟨"p5"⟩, ⟨"p6"⟩, ⟨"p7"⟩]

def sampleLeague : League :=
  { ownerId := "owner1", admins := [], tournamentFormat := "single_elimination" }

def sampleLeagueDouble : League :=
  { ownerId := "owner1", admins := [], tournamentFormat := "double_elimination" }

def samplePair : List MemberRec := [⟨"p1"⟩, ⟨"p2"⟩]

def sampleBracketMatches : List Match :=
  [{ round := 2, matchNumber := 1, player1Id := none, player2Id := none,
     status := .pending, result := none },
   { round := 1, matchNumber := 1, player1Id := some "p1", player2Id := some "p2",
     status := .completed,
     result := some { player1Score := some 1, player2Score := some 0, winnerId := some "p1" } }]

/-- The bracket `getTournamentBracket` computes for `sampleBracketMatches`. -/
def sampleBracket : TournamentBracket :=
  { matchList :=
      [{ round := 1, matchNumber := 1, player1Id := some "p1", player2Id := some "p2",
         status := .completed,
         result := some { player1Score := some 1, player2Score := some 0,
                          winnerId := some "p1" } },
       { round := 2, matchNumber := 1, player1Id := none, player2Id := none,
         status := .pending, result := none }],
    rounds := 2,
    currentRound := 2 }

def sampleStandingMembers : List MemberRec := [⟨"p1"⟩, ⟨"p2"⟩, ⟨"p3"⟩]

def sampleStandingMatches : List Match :=
  [{ round := 1, matchNumber := 1, player1Id := some "p1", player2Id := some "p2",
     status := .completed,
     result := some { player1Score := some 2, player2Score := some 0, winnerId := some "p1" } },
   { round := 1, matchNumber := 2, player1Id := some "p1", player2Id := some "p2",
     status := .completed,
     result := some { player1Score := some 2, player2Score := some 1, winnerId := some "p1" } },
   { round := 2, matchNumber := 1, player1Id := some "p1", player2Id := some "p3",
     status := .pending, result := none }]

/-! ## Helper lemmas: folds of `max` and `min` -/

theorem foldr_max_init (l : List Nat) (b : Nat) :
    l.foldr max b = max (l.foldr max 0) b := by
  induction l with
  | nil => simp
  | cons x xs ih => simp [ih, Nat.max_assoc]

theorem le_maxRound {m : Match} : ∀ {ms : List Match}, m ∈ ms → m.round ≤ maxRound ms
  | [], h => absurd h (List.not_mem_nil m)
  | x :: xs, h => by
    rcases List.mem_cons.mp h with rfl | h'
    · simp [maxRound]
    · have hx := le_maxRound h'
      simp only [maxRound, List.map_cons, List.foldr_cons]
      simp only [maxRound] at hx
      omega

theorem maxRound_mem {ms : List Match} (h : ms ≠ []) :
    ∃ m ∈ ms, m.round = maxRound ms := by
  induction ms with
  | nil => exact absurd rfl h
  | cons x xs ih =>
    by_cases hxs : xs = []
    · subst hxs
      exact ⟨x, List.mem_cons_self x [], by simp [maxRound]⟩
    · obtain ⟨m, hm, hr⟩ := ih hxs
      simp only [maxRound, List.map_cons, List.foldr_cons]
      rcases Nat.le_total x.round (maxRound xs) with hle | hle
      · exact ⟨m, List.mem_cons_of_mem x hm, by simp only [maxRound] at hr hle; omega⟩
      · exact ⟨x, List.mem_cons_self x xs, by simp only [maxRound] at hle; omega⟩

theorem maxRound_of_forall {ms : List Match} {r : Nat}
    (hne : ms ≠ []) (hall : ∀ m ∈ ms, m.round = r) : maxRound ms = r := by
  obtain ⟨m, hm, hr⟩ := maxRound_mem hne
  rw [← hr, hall m hm]

theorem maxRound_append (l₁ l₂ : List Match) :
    maxRound (l₁ ++ l₂) = max (maxRound l₁) (maxRound l₂) := by
  simp only [maxRound, List.map_append, List.foldr_append]
  rw [foldr_max_init]

theorem foldr_min_le_init (l : List Nat) (b : Nat) : l.foldr min b ≤ b := by
  induction l with
  | nil => simp
  | cons x xs ih =>
    simp only [List.foldr_cons]
    omega

theorem foldr_min_init_min (l : List Nat) (b c : Nat) :
    l.foldr min (min b c) = min b (l.foldr min c) := by
  induction l with
  | nil => simp
  | cons x xs ih =>
    simp only [List.foldr_cons, ih]
    omega

/-! ## Helper lemmas: the bracket comparator -/

theorem bracketLE_iff (a b : Match) : bracketLE a b = true ↔ bracketOrder a b := by
  by_cases h : a.round = b.round
  · simp [bracketLE, bracketOrder, h]
  · simp only [bracketLE, bracketOrder, if_pos h, decide_eq_true_eq]
    constructor
    · exact fun hlt => Or.inl hlt
    · rintro (hlt | ⟨heq, _⟩)
      · exact hlt
      · exact absurd heq h

theorem bracketLE_total (a b : Match) : bracketLE a b = true ∨ bracketLE b a = true := by
  simp only [bracketLE_iff, bracketOrder]
  omega

theorem bracketLE_trans (a b c : Match) (hab : bracketLE a b = true)
    (hbc : bracketLE b c = true) : bracketLE a c = true := by
  rw [bracketLE_iff] at hab hbc ⊢
  simp only [bracketOrder] at hab hbc ⊢
  omega

/-- The fields of the bracket `getTournamentBracket` returns on a non-empty
match list, in closed form. -/
theorem getTournamentBracket_eq_some {ms : List Match} (h : ms ≠ []) :
    getTournamentBracket ms =
      some
        { matchList := List.insertionSort (fun a b => bracketLE a b = true) ms
          rounds := maxRound ms
          currentRound :=
            if ((ms.filter fun m => m.status ≠ .completed).map Match.round).foldr min
                (maxRound ms) = 0 then 1
            else ((ms.filter fun m => m.status ≠ .completed).map Match.round).foldr min
                (maxRound ms) } := by
  have hlen : ¬ms.length = 0 := by simpa using h
  simp only [getTournamentBracket, hlen, if_false, maxRound]

/-! ## Helper lemmas: `Nat.clog 2` (the spec's `ceil(log2 n)`) -/

theorem clog2_one : Nat.clog 2 1 = 0 := by
  simp [Nat.clog]

theorem clog2_halve {n : Nat} (h : 2 ≤ n) :
    Nat.clog 2 n = Nat.clog 2 ((n + 1) / 2) + 1 := by
  simpa using Nat.clog_of_two_le (b := 2) (by norm_num) h

theorem clog2_two : Nat.clog 2 2 = 1 := by
  rw [clog2_halve (Nat.le_refl 2)]
  norm_num [clog2_one]

/-! ## Helper lemmas: the generated match lists -/

theorem length_firstRoundPaired (l : List MemberRec) :
    (firstRoundPaired l).length = l.length / 2 := by
  simp [firstRoundPaired]

theorem mem_firstRoundPaired {m : Match} {l : List MemberRec}
    (h : m ∈ firstRoundPaired l) :
    m.round = 1 ∧ m.player2Id ≠ none ∧ m.player1Id ≠ none := by
  obtain ⟨i, _, rfl⟩ := List.mem_map.mp h
  exact ⟨rfl, by simp, by simp⟩

theorem length_byeMatches (l : List MemberRec) :
    (byeMatches l).length = l.length - l.length / 2 * 2 := by
  simp [byeMatches]

theorem mem_byeMatches {m : Match} {l : List MemberRec}
    (h : m ∈ byeMatches l) :
    m.round = 1 ∧ m.player2Id = none ∧ m.player1Id ≠ none := by
  obtain ⟨i, _, rfl⟩ := List.mem_map.mp h
  exact ⟨rfl, rfl, by simp⟩

theorem placeholderRounds_of_le_one {a : Nat} (fuel round : Nat) (h : a ≤ 1) :
    placeholderRounds fuel a round = [] := by
  cases fuel with
  | zero => rfl
  | succ fuel => simp [placeholderRounds, Nat.not_lt.mpr h]

theorem placeholderRounds_fuel_irrelevant :
    ∀ fuel₁ fuel₂ a round, a ≤ fuel₁ → a ≤ fuel₂ →
      placeholderRounds fuel₁ a round = placeholderRounds fuel₂ a round := by
  intro fuel₁
  induction fuel₁ with
  | zero =>
    intro fuel₂ a round h₁ _
    rw [placeholderRounds_of_le_one _ _ (by omega),
      placeholderRounds_of_le_one _ _ (by omega)]
  | succ fuel₁ ih =>
    intro fuel₂ a round h₁ h₂
    by_cases ha : a ≤ 1
    · rw [placeholderRounds_of_le_one _ _ ha, placeholderRounds_of_le_one _ _ ha]
    · have ha2 : 1 < a := by omega
      obtain ⟨fuel₂', rfl⟩ : ∃ k, fuel₂ = k + 1 := ⟨fuel₂ - 1, by omega⟩
      have hhalf : (a + 1) / 2 < a := by omega
      simp only [placeholderRounds, if_pos ha2]
      rw [ih fuel₂' ((a + 1) / 2) (round + 1) (by omega) (by omega)]

theorem mem_placeholderRounds :
    ∀ {fuel a round : Nat} {m : Match}, m ∈ placeholderRounds fuel a round →
      round ≤ m.round ∧ m.player1Id = none ∧ m.player2Id = none := by
  intro fuel
  induction fuel with
  | zero => intro a round m h; cases h
  | succ fuel ih =>
    intro a round m h
    by_cases ha : 1 < a
    · simp only [placeholderRounds, if_pos ha, List.mem_append] at h
      rcases h with h | h
      · obtain ⟨i, _, rfl⟩ := List.mem_map.mp h
        exact ⟨Nat.le_refl _, rfl, rfl⟩
      · obtain ⟨hle, h1, h2⟩ := ih h
        exact ⟨by omega, h1, h2⟩
    · simp only [placeholderRounds, if_neg ha] at h
      cases h

theorem maxRound_le_of_forall {ms : List Match} {r : Nat}
    (h : ∀ m ∈ ms, m.round ≤ r) : maxRound ms ≤ r := by
  induction ms with
  | nil => simp [maxRound]
  | cons x xs ih =>
    have hx := h x (List.mem_cons_self x xs)
    have hxs := ih fun m hm => h m (List.mem_cons_of_mem x hm)
    simp only [maxRound, List.map_cons, List.foldr_cons] at *
    omega

theorem mem_placeholderBlock {k r : Nat} {m : Match}
    (hm : m ∈ (List.range k).map fun i =>
      ({ round := r, matchNumber := i + 1, player1Id := none, player2Id := none,
         status := .pending, result := none } : Match)) : m.round = r := by
  obtain ⟨i, _, rfl⟩ := List.mem_map.mp hm
  rfl

theorem maxRound_placeholderBlock {k r : Nat} (hk : 0 < k) :
    maxRound ((List.range k).map fun i =>
      ({ round := r, matchNumber := i + 1, player1Id := none, player2Id := none,
         status := .pending, result := none } : Match)) = r := by
  apply maxRound_of_forall
  · apply List.ne_nil_of_length_pos
    simpa using hk
  · exact fun m hm => mem_placeholderBlock hm

theorem maxRound_placeholderRounds :
    ∀ {fuel a round : Nat}, a ≤ fuel → 2 ≤ a →
      maxRound (placeholderRounds fuel a round) = round + Nat.clog 2 a - 1 := by
  intro fuel
  induction fuel with
  | zero => intro a round h1 h2; omega
  | succ fuel ih =>
    intro a round h1 h2
    have ha : 1 < a := by omega
    simp only [placeholderRounds, if_pos ha]
    rw [maxRound_append, maxRound_placeholderBlock (by omega)]
    by_cases hhalf : (a + 1) / 2 ≤ 1
    · have ha2 : a = 2 := by omega
      rw [placeholderRounds_of_le_one _ _ hhalf]
      subst ha2
      rw [clog2_two]
      simp [maxRound]
    · have h2' : 2 ≤ (a + 1) / 2 := by omega
      rw [ih (by omega) h2']
      have hclog : Nat.clog 2 a = Nat.clog 2 ((a + 1) / 2) + 1 := clog2_halve h2
      have hpos : 0 < Nat.clog 2 ((a + 1) / 2) := Nat.clog_pos (by norm_num) h2'
      omega

theorem countFinal_placeholderRounds :
    ∀ {fuel a round : Nat}, a ≤ fuel → 2 ≤ a →
      ((placeholderRounds fuel a round).filter
        (fun m => m.round = round + Nat.clog 2 a - 1)).length = 1 := by
  intro fuel
  induction fuel with
  | zero => intro a round h1 h2; omega
  | succ fuel ih =>
    intro a round h1 h2
    have ha : 1 < a := by omega
    simp only [placeholderRounds, if_pos ha]
    rw [List.filter_append, List.length_append]
    by_cases hhalf : (a + 1) / 2 ≤ 1
    · have ha2 : a = 2 := by omega
      subst ha2
      rw [placeholderRounds_of_le_one _ _ hhalf]
      rw [List.filter_eq_self.mpr]
      · simp [clog2_two]
      · intro m hm
        have := mem_placeholderBlock hm
        simp [this, clog2_two]
    · have h2' : 2 ≤ (a + 1) / 2 := by omega
      have hclog : Nat.clog 2 a = Nat.clog 2 ((a + 1) / 2) + 1 := clog2_halve h2
      have hpos : 0 < Nat.clog 2 ((a + 1) / 2) := Nat.clog_pos (by norm_num) h2'
      have hblock :
          (((List.range ((a + 1) / 2)).map fun i =>
            ({ round := round, matchNumber := i + 1, player1Id := none, player2Id := none,
               status := .pending, result := none } : Match)).filter
              (fun m => m.round = round + Nat.clog 2 a - 1)).length = 0 := by
        rw [List.length_eq_zero]
        rw [List.filter_eq_nil_iff]
        intro m hm
        have := mem_placeholderBlock hm
        simp only [this, decide_eq_true_eq]
        omega
      rw [hblock]
      have harg : round + Nat.clog 2 a - 1 = (round + 1) + Nat.clog 2 ((a + 1) / 2) - 1 := by
        omega
      rw [harg, ih (by omega) h2']

/-- Inversion of a successful `generateBracketMatches` call: every
precondition held and the result is the freshly built match list. -/
theorem generateBracketMatches_ok_inv {u : String} {lg : League} {store : List Match}
    {members shuffled : List MemberRec} {ms : List Match}
    (hok : generateBracketMatches (some u) (some lg) store members shuffled = .ok ms) :
    (lg.ownerId = u ∨ u ∈ lg.admins) ∧
    (lg.tournamentFormat = "single_elimination" ∨
      lg.tournamentFormat = "double_elimination") ∧
    store = [] ∧ 2 ≤ members.length ∧
    ms = buildMatches lg.tournamentFormat shuffled := by
  simp only [generateBracketMatches] at hok
  split_ifs at hok with h1 h2 h3 h4
  cases hok
  have hstore : store = [] := List.length_eq_zero.mp (by omega)
  subst hstore
  exact ⟨by tauto, by tauto, rfl, by omega, by simp⟩

theorem placeholderRounds_not_round1 {fuel a : Nat} {m : Match}
    (hm : m ∈ placeholderRounds fuel a 2) : ¬m.round = 1 := by
  have := (mem_placeholderRounds hm).1
  omega

/-- The round-1 sub-list of `buildMatches`, for either supported format, is
exactly the paired matches followed by the byes. -/
theorem buildMatches_filter_round1 (fmt : String) (l : List MemberRec) :
    (buildMatches fmt l).filter (fun m => m.round = 1) =
      firstRoundPaired l ++ byeMatches l := by
  simp only [buildMatches]
  rw [List.filter_append, List.filter_append]
  rw [List.filter_eq_self.mpr (fun m hm => by simp [(mem_firstRoundPaired hm).1]),
    List.filter_eq_self.mpr (fun m hm => by simp [(mem_byeMatches hm).1])]
  have hph : (if fmt = "single_elimination" then
      placeholderRounds (l.length / 2 + (l.length - l.length / 2 * 2))
        (l.length / 2 + (l.length - l.length / 2 * 2)) 2
    else ([] : List Match)).filter (fun m => m.round = 1) = [] := by
    split
    · exact List.filter_eq_nil_iff.mpr fun m hm => by
        simpa using placeholderRounds_not_round1 hm
    · rfl
  rw [hph, List.append_nil]

/-- Splitting a list into consecutive pairs and a possible leftover element,
by index, reassembles the list.  This is the index arithmetic of the
round-1 pairing loop. -/
theorem interleave_getD : ∀ l : List String,
    ((List.range (l.length / 2)).flatMap fun i =>
      [l.getD (2 * i) "", l.getD (2 * i + 1) ""]) ++
      ((List.range (l.length - l.length / 2 * 2)).map fun i =>
        l.getD (l.length / 2 * 2 + i) "") = l
  | [] => by simp
  | [a] => by simp [List.range_succ]
  | a :: b :: t => by
    have ih := interleave_getD t
    have hlen : (a :: b :: t).length = t.length + 2 := by simp
    have hdiv : (t.length + 2) / 2 = t.length / 2 + 1 := by omega
    have hmod : t.length + 2 - (t.length + 2) / 2 * 2 = t.length - t.length / 2 * 2 := by
      omega
    rw [hlen, hdiv]
    rw [List.range_succ_eq_map]
    rw [List.flatMap_cons, List.flatMap_map]
    have hpairs :
        (List.range (t.length / 2)).flatMap
            (fun i => [(a :: b :: t).getD (2 * Nat.succ i) "",
              (a :: b :: t).getD (2 * Nat.succ i + 1) ""]) =
          (List.range (t.length / 2)).flatMap
            (fun i => [t.getD (2 * i) "", t.getD (2 * i + 1) ""]) := by
      apply List.flatMap_congr
      intro i _
      have h3 : 2 * Nat.succ i + 1 = 2 * i + 1 + 1 + 1 := by omega
      have h2 : 2 * Nat.succ i = 2 * i + 1 + 1 := by omega
      rw [h3, h2]
      simp [List.getD_cons_succ]
    have hbyes :
        ((List.range (t.length + 2 - (t.length / 2 + 1) * 2)).map fun i =>
            (a :: b :: t).getD ((t.length / 2 + 1) * 2 + i) "") =
          (List.range (t.length - t.length / 2 * 2)).map fun i =>
            t.getD (t.length / 2 * 2 + i) "" := by
      have harg : t.length + 2 - (t.length / 2 + 1) * 2 = t.length - t.length / 2 * 2 := by
        omega
      rw [harg]
      apply List.map_congr_left
      intro i _
      have h4 : (t.length / 2 + 1) * 2 + i = t.length / 2 * 2 + i + 1 + 1 := by omega
      rw [h4]
      simp [List.getD_cons_succ]
    rw [hpairs, hbyes]
    simp only [Nat.mul_zero, List.getD_cons_zero, List.getD_cons_succ,
      List.cons_append, List.nil_append, List.append_assoc]
    rw [ih]

theorem flatMap_singleton_eq_map {α β : Type} (l : List α) (f : α → β) :
    (l.flatMap fun x => [f x]) = l.map f := by
  induction l with
  | nil => rfl
  | cons x xs ih => simp [ih]

/-- Lemma: `buildMatches` in explicit append form for single elimination. -/
theorem buildMatches_single (l : List MemberRec) :
    buildMatches "single_elimination" l =
      firstRoundPaired l ++ byeMatches l ++
        placeholderRounds (l.length / 2 + (l.length - l.length / 2 * 2))
          (l.length / 2 + (l.length - l.length / 2 * 2)) 2 := by
  simp [buildMatches]

/-- Lemma: `buildMatches` in explicit append form for double elimination: no
placeholder rounds. -/
theorem buildMatches_double (l : List MemberRec) :
    buildMatches "double_elimination" l = firstRoundPaired l ++ byeMatches l := by
  simp [buildMatches]

theorem firstRoundPaired_ne_nil {l : List MemberRec} (h : 2 ≤ l.length) :
    firstRoundPaired l ≠ [] := by
  apply List.ne_nil_of_length_pos
  rw [length_firstRoundPaired]
  omega

/-- The maximum round over all matches generated for a single-elimination
bracket on `n ≥ 2` participants is `⌈log₂ n⌉`. -/
theorem maxRound_buildMatches_single {l : List MemberRec} (h : 2 ≤ l.length) :
    maxRound (buildMatches "single_elimination" l) = Nat.clog 2 l.length := by
  rw [buildMatches_single, maxRound_append, maxRound_append]
  have hA : maxRound (firstRoundPaired l) = 1 :=
    maxRound_of_forall (firstRoundPaired_ne_nil h)
      (fun m hm => (mem_firstRoundPaired hm).1)
  have hB : maxRound (byeMatches l) ≤ 1 :=
    maxRound_le_of_forall (fun m hm => le_of_eq (mem_byeMatches hm).1)
  rw [hA]
  set a := l.length / 2 + (l.length - l.length / 2 * 2) with ha
  by_cases hsmall : a ≤ 1
  · have hn2 : l.length = 2 := by omega
    rw [placeholderRounds_of_le_one _ _ hsmall]
    have : maxRound ([] : List Match) = 0 := rfl
    rw [this, hn2, clog2_two]
    omega
  · have ha2 : 2 ≤ a := by omega
    rw [maxRound_placeholderRounds (Nat.le_refl a) ha2]
    have hhalf : a = (l.length + 1) / 2 := by omega
    have hclog : Nat.clog 2 l.length = Nat.clog 2 ((l.length + 1) / 2) + 1 :=
      clog2_halve h
    have hpos : 0 < Nat.clog 2 a := Nat.clog_pos (by norm_num) ha2
    rw [hhalf] at hpos ⊢
    omega

/-- The round-1 player slots of a generated bracket are exactly the shuffled
member ids, in order. -/
theorem round1Slots_buildMatches (fmt : String) (l : List MemberRec) :
    round1Slots (buildMatches fmt l) = l.map MemberRec.userId := by
  unfold round1Slots
  rw [buildMatches_filter_round1, List.flatMap_append]
  unfold firstRoundPaired byeMatches
  rw [List.flatMap_map, List.flatMap_map]
  simp only [Option.toList_some, Option.toList_none, List.append_nil, List.cons_append,
    List.nil_append]
  have hpairs :
      ((List.range (l.length / 2)).flatMap fun i =>
          [(l.getD (2 * i) ⟨""⟩).userId, (l.getD (2 * i + 1) ⟨""⟩).userId]) =
        (List.range ((l.map MemberRec.userId).length / 2)).flatMap fun i =>
          [(l.map MemberRec.userId).getD (2 * i) "",
            (l.map MemberRec.userId).getD (2 * i + 1) ""] := by
    rw [List.length_map]
    apply List.flatMap_congr
    intro i _
    rw [← List.getD_map l ⟨""⟩ MemberRec.userId, ← List.getD_map l ⟨""⟩ MemberRec.userId]
  have hbyes :
      ((List.range (l.length - l.length / 2 * 2)).flatMap fun i =>
          [(l.getD (l.length / 2 * 2 + i) ⟨""⟩).userId]) =
        (List.range ((l.map MemberRec.userId).length -
            (l.map MemberRec.userId).length / 2 * 2)).map fun i =>
          (l.map MemberRec.userId).getD ((l.map MemberRec.userId).length / 2 * 2 + i) "" := by
    rw [List.length_map, flatMap_singleton_eq_map]
    apply List.map_congr_left
    intro i _
    rw [← List.getD_map l ⟨""⟩ MemberRec.userId]
  rw [hpairs, hbyes]
  exact interleave_getD (l.map MemberRec.userId)

theorem filter_roundOne_paired (l : List MemberRec) :
    ((firstRoundPaired l).filter fun m => m.round = 1 ∧ m.player2Id ≠ none) =
      firstRoundPaired l :=
  List.filter_eq_self.mpr fun m hm => by
    have h := mem_firstRoundPaired hm
    simp [h.1, h.2.1]

theorem filter_roundOne_byes (l : List MemberRec) :
    ((byeMatches l).filter fun m => m.round = 1 ∧ m.player2Id = none) =
      byeMatches l :=
  List.filter_eq_self.mpr fun m hm => by
    have h := mem_byeMatches hm
    simp [h.1, h.2.1]

/-! ## Helper lemmas: standings -/

theorem standingLE_iff (a b : Standing) : standingLE a b = true ↔ standingOrder a b := by
  by_cases h : a.wins = b.wins
  · simp [standingLE, standingOrder, h]
  · simp [standingLE, standingOrder, h]

theorem standingLE_total (a b : Standing) :
    standingLE a b = true ∨ standingLE b a = true := by
  rw [standingLE_iff, standingLE_iff]
  unfold standingOrder
  by_cases h : a.wins = b.wins
  · rcases le_total b.winRate a.winRate with hr | hr
    · exact Or.inl (Or.inr ⟨h, hr⟩)
    · exact Or.inr (Or.inr ⟨h.symm, hr⟩)
  · rcases Nat.lt_or_ge a.wins b.wins with hw | hw
    · exact Or.inr (Or.inl hw)
    · exact Or.inl (Or.inl (by omega))

theorem standingLE_trans (a b c : Standing) (hab : standingLE a b = true)
    (hbc : standingLE b c = true) : standingLE a c = true := by
  rw [standingLE_iff] at hab hbc ⊢
  unfold standingOrder at hab hbc ⊢
  rcases hab with h1 | ⟨h1, r1⟩ <;> rcases hbc with h2 | ⟨h2, r2⟩
  · exact Or.inl (by omega)
  · exact Or.inl (by omega)
  · exact Or.inl (by omega)
  · exact Or.inr ⟨by omega, le_trans r2 r1⟩

theorem codeWins_eq_specWins (uid : String) (ms : List Match) :
    ((ms.filter fun m => m.status = MatchStatus.completed).filter
      fun m => matchWinner m = some uid).length = specWins uid ms := by
  unfold specWins
  rw [List.filter_filter]
  congr 1
  apply List.filter_congr
  intro m _
  by_cases h1 : m.status = MatchStatus.completed <;>
    by_cases h2 : matchWinner m = some uid <;> simp [h1, h2]

theorem codeLosses_eq_specLosses (uid : String) (ms : List Match) :
    ((ms.filter fun m => m.status = MatchStatus.completed).filter fun m =>
        (m.player1Id = some uid ∨ m.player2Id = some uid) ∧
          matchWinner m ≠ some uid ∧ m.status = MatchStatus.completed).length =
      specLosses uid ms := by
  unfold specLosses
  rw [List.filter_filter]
  congr 1
  apply List.filter_congr
  intro m _
  by_cases h1 : m.status = MatchStatus.completed <;>
    by_cases h2 : matchWinner m = some uid <;>
    by_cases h3 : m.player1Id = some uid ∨ m.player2Id = some uid <;>
    simp [h1, h2, h3]

/-- The standings list the source computes is the spec's per-member rows,
sorted with the source comparator. -/
theorem getTournamentStandings_eq (members : List MemberRec) (allMatches : List Match) :
    getTournamentStandings members allMatches =
      List.insertionSort (fun a b => standingLE a b = true)
        (members.map (specStanding allMatches)) := by
  simp only [getTournamentStandings]
  congr 1
  apply List.map_congr_left
  intro member _
  have hw := codeWins_eq_specWins member.userId allMatches
  have hl := codeLosses_eq_specLosses member.userId allMatches
  unfold specStanding specWinRate
  simp only [Standing.mk.injEq]
  exact ⟨trivial, hw, hl, by rw [hw, hl]⟩

theorem specWins_add_specLosses_le (uid : String) :
    ∀ ms : List Match, (∀ m ∈ ms, m.status = MatchStatus.completed →
      matchWinner m = m.player1Id ∨ matchWinner m = m.player2Id) →
    specWins uid ms + specLosses uid ms ≤ completedAppearances uid ms := by
  intro ms
  induction ms with
  | nil => intro _; simp [specWins, specLosses, completedAppearances]
  | cons m t ih =>
    intro hyp
    have ht := ih fun x hx => hyp x (List.mem_cons_of_mem m hx)
    have hm := hyp m (List.mem_cons_self m t)
    unfold specWins specLosses completedAppearances at ht ⊢
    rw [List.filter_cons, List.filter_cons, List.filter_cons]
    by_cases h1 : m.status = MatchStatus.completed
    · by_cases h2 : matchWinner m = some uid
      · have happ : m.player1Id = some uid ∨ m.player2Id = some uid := by
          rcases hm h1 with h | h
          · left; rw [← h, h2]
          · right; rw [← h, h2]
        rw [if_pos (by simp [h1, h2]), if_neg (by simp [h2]),
          if_pos (by simp [h1, happ])]
        simp only [List.length_cons]
        omega
      · by_cases h3 : m.player1Id = some uid ∨ m.player2Id = some uid
        · rw [if_neg (by simp [h2]), if_pos (by simp [h1, h2, h3]),
            if_pos (by simp [h1, h3])]
          simp only [List.length_cons]
          omega
        · rw [if_neg (by simp [h2]), if_neg (by simp [h3]), if_neg (by simp [h3])]
          omega
    · rw [if_neg (by simp [h1]), if_neg (by simp [h1]), if_neg (by simp [h1])]
      omega

/-! ## Claim theorems -/

/-- C1.  For every league whose active-member pool has size `n ≥ 2`, a
successful single-elimination `generateBracket` creates exactly `⌊n/2⌋`
round-1 matches with two players plus `n - 2⌊n/2⌋` round-1 bye matches, and
the maximum round number over all created matches equals `⌈log₂ n⌉`
(`Nat.clog 2 n`); the pool size being at least 2 is part of the success. -/
theorem generateBracket_round1_counts_and_total_rounds
    (u : String) (lg : League) (store : List Match)
    (members shuffled : List MemberRec) (ms : List Match)
    (hfmt : lg.tournamentFormat = "single_elimination")
    (hshuffle : shuffled.Perm members)
    (hok : generateBracketMatches (some u) (some lg) store members shuffled = .ok ms) :
    2 ≤ members.length ∧
    (ms.filter fun m => m.round = 1 ∧ m.player2Id ≠ none).length = members.length / 2 ∧
    (ms.filter fun m => m.round = 1 ∧ m.player2Id = none).length =
      members.length - 2 * (members.length / 2) ∧
    maxRound ms = Nat.clog 2 members.length := by
  obtain ⟨-, -, -, hn, rfl⟩ := generateBracketMatches_ok_inv hok
  rw [hfmt]
  have hlen : shuffled.length = members.length := hshuffle.length_eq
  have hn' : 2 ≤ shuffled.length := by omega
  refine ⟨hn, ?_, ?_, ?_⟩
  · rw [buildMatches_single, List.filter_append, List.filter_append,
      List.length_append, List.length_append]
    rw [filter_roundOne_paired, length_firstRoundPaired]
    have hB : ((byeMatches shuffled).filter
        fun m => m.round = 1 ∧ m.player2Id ≠ none) = [] :=
      List.filter_eq_nil_iff.mpr fun m hm => by
        have h := mem_byeMatches hm
        simp [h.2.1]
    have hC : ((placeholderRounds (shuffled.length / 2 +
          (shuffled.length - shuffled.length / 2 * 2))
          (shuffled.length / 2 + (shuffled.length - shuffled.length / 2 * 2)) 2).filter
        fun m => m.round = 1 ∧ m.player2Id ≠ none) = [] :=
      List.filter_eq_nil_iff.mpr fun m hm => by
        simp [placeholderRounds_not_round1 hm]
    rw [hB, hC]
    simp [hlen]
  · rw [buildMatches_single, List.filter_append, List.filter_append,
      List.length_append, List.length_append]
    rw [filter_roundOne_byes, length_byeMatches]
    have hA : ((firstRoundPaired shuffled).filter
        fun m => m.round = 1 ∧ m.player2Id = none) = [] :=
      List.filter_eq_nil_iff.mpr fun m hm => by
        have h := mem_firstRoundPaired hm
        simp [h.2.1]
    have hC : ((placeholderRounds (shuffled.length / 2 +
          (shuffled.length - shuffled.length / 2 * 2))
          (shuffled.length / 2 + (shuffled.length - shuffled.length / 2 * 2)) 2).filter
        fun m => m.round = 1 ∧ m.player2Id = none) = [] :=
      List.filter_eq_nil_iff.mpr fun m hm => by
        simp [placeholderRounds_not_round1 hm]
    rw [hA, hC]
    simp only [List.length_nil, Nat.zero_add, Nat.add_zero]
    omega
  · rw [maxRound_buildMatches_single hn', hlen]

/-- C7.  For every participant count `n ≥ 2`, among all matches created
by a successful single-elimination `generateBracket`, the maximal round
contains exactly one match (the final); for `n = 2` that single match is the
sole created match and it sits in round 1. -/
theorem generateBracket_unique_final
    (u : String) (lg : League) (store : List Match)
    (members shuffled : List MemberRec) (ms : List Match)
    (hfmt : lg.tournamentFormat = "single_elimination")
    (hshuffle : shuffled.Perm members)
    (hok : generateBracketMatches (some u) (some lg) store members shuffled = .ok ms) :
    (ms.filter fun m => m.round = maxRound ms).length = 1 ∧
    (members.length = 2 → ms.length = 1 ∧ maxRound ms = 1) := by
  obtain ⟨-, -, -, hn, rfl⟩ := generateBracketMatches_ok_inv hok
  rw [hfmt]
  have hlen : shuffled.length = members.length := hshuffle.length_eq
  have hn' : 2 ≤ shuffled.length := by omega
  have hmax := maxRound_buildMatches_single hn'
  constructor
  · rw [hmax, buildMatches_single, List.filter_append, List.filter_append,
      List.length_append, List.length_append]
    set a := shuffled.length / 2 + (shuffled.length - shuffled.length / 2 * 2) with ha
    by_cases hsmall : a ≤ 1
    · -- n = 2: one paired match, no byes, no placeholders
      have hn2 : shuffled.length = 2 := by omega
      rw [placeholderRounds_of_le_one _ _ hsmall]
      have hA : ((firstRoundPaired shuffled).filter
          fun m => m.round = Nat.clog 2 shuffled.length) = firstRoundPaired shuffled :=
        List.filter_eq_self.mpr fun m hm => by
          simp [(mem_firstRoundPaired hm).1, hn2, clog2_two]
      have hB : byeMatches shuffled = [] := by
        apply List.length_eq_zero.mp
        rw [length_byeMatches]
        omega
      rw [hA, hB, length_firstRoundPaired]
      simp [hn2]
    · have ha2 : 2 ≤ a := by omega
      have hhalf : a = (shuffled.length + 1) / 2 := by omega
      have hclog : Nat.clog 2 shuffled.length = Nat.clog 2 ((shuffled.length + 1) / 2) + 1 :=
        clog2_halve hn'
      have hpos : 0 < Nat.clog 2 a := Nat.clog_pos (by norm_num) ha2
      have htarget : Nat.clog 2 shuffled.length = 2 + Nat.clog 2 a - 1 := by
        rw [hhalf] at hpos ⊢
        omega
      have hA : ((firstRoundPaired shuffled).filter
          fun m => m.round = Nat.clog 2 shuffled.length) = [] :=
        List.filter_eq_nil_iff.mpr fun m hm => by
          have h1 := (mem_firstRoundPaired hm).1
          simp only [h1, decide_eq_true_eq]
          rw [hhalf] at hpos htarget
          omega
      have hB : ((byeMatches shuffled).filter
          fun m => m.round = Nat.clog 2 shuffled.length) = [] :=
        List.filter_eq_nil_iff.mpr fun m hm => by
          have h1 := (mem_byeMatches hm).1
          simp only [h1, decide_eq_true_eq]
          rw [hhalf] at hpos htarget
          omega
      rw [hA, hB, htarget, countFinal_placeholderRounds (Nat.le_refl a) ha2]
      rfl
  · intro h2
    have hn2 : shuffled.length = 2 := by omega
    have hsmall : shuffled.length / 2 + (shuffled.length - shuffled.length / 2 * 2) ≤ 1 := by
      omega
    constructor
    · rw [buildMatches_single, placeholderRounds_of_le_one _ _ hsmall,
        List.append_nil, List.length_append, length_firstRoundPaired, length_byeMatches]
      omega
    · rw [hmax, hn2, clog2_two]

/-- C8.  The seeding step of `generateBracket` produces a permutation of
the participant pool: the round-1 player slots of a successful generation
are exactly the shuffled members in order, hence a permutation of the
active-member pool — each member appears in exactly one round-1 slot, none
omitted, none duplicated, for every possible shuffle outcome. -/
theorem generateBracket_seeding_permutation
    (u : String) (lg : League) (store : List Match)
    (members shuffled : List MemberRec) (ms : List Match)
    (hshuffle : shuffled.Perm members)
    (hok : generateBracketMatches (some u) (some lg) store members shuffled = .ok ms) :
    round1Slots ms = shuffled.map MemberRec.userId ∧
    (round1Slots ms).Perm (members.map MemberRec.userId) := by
  obtain ⟨-, -, -, -, rfl⟩ := generateBracketMatches_ok_inv hok
  refine ⟨round1Slots_buildMatches _ _, ?_⟩
  rw [round1Slots_buildMatches]
  exact hshuffle.map MemberRec.userId

/-- C2 counterexample.  A double-elimination league is not rejected:
with every other precondition satisfied, `generateBracketMatches` on a
two-member double-elimination league succeeds and creates one round-1
match — it does not fail with the unsupported-format error (nor any other). -/
theorem generateBracket_double_elim_not_rejected :
    generateBracketMatches (some "owner1") (some sampleLeagueDouble) []
        samplePair samplePair =
      .ok [{ round := 1, matchNumber := 1, player1Id := some "p1",
             player2Id := some "p2", status := .pending, result := none }] ∧
    ∀ e : GenError,
      generateBracketMatches (some "owner1") (some sampleLeagueDouble) []
          samplePair samplePair ≠ .error e := by
  constructor
  · rfl
  · intro e h
    rw [(rfl : generateBracketMatches (some "owner1") (some sampleLeagueDouble) []
        samplePair samplePair =
      .ok [{ round := 1, matchNumber := 1, player1Id := some "p1",
             player2Id := some "p2", status := .pending, result := none }])] at h
    cases h

/-- C2 amended.  `generateBracketMatches` rejects with the
unsupported-format error exactly the formats that are neither
single-elimination nor double-elimination; a double-elimination league
passes the format check, and generation then succeeds, creating the round-1
paired and bye matches but no later-round placeholders (every created match
has round 1). -/
theorem generateBracket_format_handling
    (u : String) (lg : League) (store : List Match) (members shuffled : List MemberRec)
    (hauth : lg.ownerId = u ∨ u ∈ lg.admins) :
    (lg.tournamentFormat ≠ "single_elimination" →
      lg.tournamentFormat ≠ "double_elimination" →
      generateBracketMatches (some u) (some lg) store members shuffled =
        .error .unsupportedFormat) ∧
    (lg.tournamentFormat = "double_elimination" → store = [] → 2 ≤ members.length →
      shuffled.length = members.length →
      ∃ ms, generateBracketMatches (some u) (some lg) store members shuffled = .ok ms ∧
        ms ≠ [] ∧ ∀ m ∈ ms, m.round = 1) := by
  constructor
  · intro hs hd
    simp only [generateBracketMatches]
    rw [if_neg (by tauto), if_pos ⟨hs, hd⟩]
  · intro hfmt hstore hn hlen
    subst hstore
    refine ⟨buildMatches lg.tournamentFormat shuffled, ?_, ?_, ?_⟩
    · simp only [generateBracketMatches]
      rw [if_neg (by tauto), if_neg (by simp [hfmt]), if_neg (by simp),
        if_neg (by omega)]
      simp
    · rw [hfmt, buildMatches_double]
      intro hnil
      have hc := congrArg List.length hnil
      rw [List.length_append, length_firstRoundPaired, length_byeMatches] at hc
      simp only [List.length_nil] at hc
      omega
    · intro m hm
      rw [hfmt, buildMatches_double] at hm
      rcases List.mem_append.mp hm with h | h
      · exact (mem_firstRoundPaired h).1
      · exact (mem_byeMatches h).1

/-- C4.  If at least one match record already exists for the league,
`generateBracketMatches` fails with the already-generated error (for an
authorized caller and a bracket format, so that no earlier check fires),
leaving the store unchanged — in this embedding an error result performs no
writes by construction, mirroring the source, where the existence check
precedes every write.  Consequently a second generation call on the league
fails with that error. -/
theorem generateBracket_already_generated
    (u : String) (lg : League) (members shuffled shuffled2 : List MemberRec)
    (hauth : lg.ownerId = u ∨ u ∈ lg.admins)
    (hfmt : lg.tournamentFormat = "single_elimination" ∨
      lg.tournamentFormat = "double_elimination")
    (hshuffle : shuffled.Perm members) :
    (∀ store : List Match, store ≠ [] →
      generateBracketMatches (some u) (some lg) store members shuffled =
        .error .alreadyGenerated) ∧
    (∀ ms, generateBracketMatches (some u) (some lg) [] members shuffled = .ok ms →
      ms ≠ [] ∧
      generateBracketMatches (some u) (some lg) ms members shuffled2 =
        .error .alreadyGenerated) := by
  have hfmt' : ¬(lg.tournamentFormat ≠ "single_elimination" ∧
      lg.tournamentFormat ≠ "double_elimination") := by tauto
  constructor
  · intro store hne
    simp only [generateBracketMatches]
    rw [if_neg (by tauto), if_neg hfmt', if_pos (List.length_pos.mpr hne)]
  · intro ms hok
    obtain ⟨-, -, -, hn, rfl⟩ := generateBracketMatches_ok_inv hok
    have hlen := hshuffle.length_eq
    have hne : buildMatches lg.tournamentFormat shuffled ≠ [] := by
      intro hnil
      have hc := congrArg (fun l => (List.filter (fun m => m.round = 1) l).length) hnil
      simp only [buildMatches_filter_round1, List.filter_nil, List.length_nil,
        List.length_append, length_firstRoundPaired, length_byeMatches] at hc
      omega
    refine ⟨hne, ?_⟩
    simp only [generateBracketMatches]
    rw [if_neg (by tauto), if_neg hfmt', if_pos (List.length_pos.mpr hne)]

/-- C5.  `getBracket` returns null exactly when no match records exist
for the league; otherwise the returned bracket's match list is a
permutation of the league's matches sorted ascending by the pair
`(round, matchNumber)`, and its `rounds` field is the maximum round number
across all matches (an upper bound that is attained). -/
theorem getBracket_null_iff_and_content (ms : List Match) :
    (getTournamentBracket ms = none ↔ ms = []) ∧
    ∀ b, getTournamentBracket ms = some b →
      b.matchList.Perm ms ∧
      List.Sorted bracketOrder b.matchList ∧
      (∀ m ∈ ms, m.round ≤ b.rounds) ∧ (∃ m ∈ ms, m.round = b.rounds) := by
  constructor
  · constructor
    · intro h
      by_contra hne
      rw [getTournamentBracket_eq_some hne] at h
      cases h
    · intro h
      subst h
      rfl
  · intro b hb
    have hne : ms ≠ [] := by
      intro h
      subst h
      simp [getTournamentBracket] at hb
    rw [getTournamentBracket_eq_some hne] at hb
    injection hb with hb
    subst hb
    refine ⟨List.perm_insertionSort _ ms, ?_, fun m hm => le_maxRound hm,
      maxRound_mem hne⟩
    have htot : IsTotal Match (fun a b => bracketLE a b = true) := ⟨bracketLE_total⟩
    have htr : IsTrans Match (fun a b => bracketLE a b = true) := ⟨bracketLE_trans⟩
    have hs := List.sorted_insertionSort (fun a b => bracketLE a b = true) ms
    exact hs.imp fun {a b} h => (bracketLE_iff a b).mp h

/-- C3.  For every non-empty stored match set, the `currentRound` of the
bracket returned by `getBracket` is: the minimum round number among
non-completed matches; `rounds` (the maximum round) if every match is
completed; and 1 if the value so computed is zero. -/
theorem getBracket_currentRound_eq_spec (ms : List Match) (b : TournamentBracket)
    (hb : getTournamentBracket ms = some b) :
    b.currentRound = specCurrentRound ms := by
  have hne : ms ≠ [] := by
    intro h
    subst h
    simp [getTournamentBracket] at hb
  rw [getTournamentBracket_eq_some hne] at hb
  injection hb with hb
  subst hb
  unfold specCurrentRound
  cases hincEq : (ms.filter fun m => m.status ≠ MatchStatus.completed).map Match.round with
  | nil => simp [hincEq]
  | cons r rs =>
    have hrmem : r ∈ (ms.filter fun m => m.status ≠ MatchStatus.completed).map
        Match.round := by
      rw [hincEq]
      exact List.mem_cons_self r rs
    obtain ⟨m, hmfil, hmr⟩ := List.mem_map.mp hrmem
    have hle : r ≤ maxRound ms := hmr ▸ le_maxRound (List.mem_of_mem_filter hmfil)
    have key : min r (rs.foldr min (maxRound ms)) = rs.foldr min r := by
      have h1 := foldr_min_init_min rs r (maxRound ms)
      rw [min_eq_left hle] at h1
      exact h1.symm
    simp only [hincEq, List.foldr_cons, key]

/-- C10.  Whenever `getBracket` returns a bracket, its `currentRound` is
at least 1; and if every stored match has round at least 1 (as generation
guarantees), `currentRound` does not exceed `rounds`, so the current-round
pointer designates a round that exists. -/
theorem getBracket_currentRound_in_range (ms : List Match) (b : TournamentBracket)
    (hb : getTournamentBracket ms = some b) :
    1 ≤ b.currentRound ∧ ((∀ m ∈ ms, 1 ≤ m.round) → b.currentRound ≤ b.rounds) := by
  have hne : ms ≠ [] := by
    intro h
    subst h
    simp [getTournamentBracket] at hb
  rw [getTournamentBracket_eq_some hne] at hb
  injection hb with hb
  subst hb
  constructor
  · dsimp only
    split <;> omega
  · intro hall
    obtain ⟨m0, hm0, hr0⟩ := maxRound_mem hne
    have hrpos : 1 ≤ maxRound ms := hr0 ▸ hall m0 hm0
    have hle := foldr_min_le_init
      ((ms.filter fun m => m.status ≠ MatchStatus.completed).map Match.round) (maxRound ms)
    dsimp only
    split <;> omega

/-- C6.  `getStandings` returns one record per active member — members
appearing in no match included, with wins 0, losses 0, win rate 0 — where
wins counts completed matches won by the member, losses counts completed
matches the member played but did not win, the win rate is
`wins / (wins + losses) * 100` (0 when no games), and the list is sorted
descending by wins with ties broken by descending win rate. -/
theorem getStandings_characterisation (members : List MemberRec)
    (allMatches : List Match) :
    (getTournamentStandings members allMatches).Perm
      (members.map (specStanding allMatches)) ∧
    List.Sorted standingOrder (getTournamentStandings members allMatches) ∧
    (∀ member ∈ members,
      (∀ m ∈ allMatches, m.status = MatchStatus.completed →
        m.player1Id ≠ some member.userId ∧ m.player2Id ≠ some member.userId ∧
          matchWinner m ≠ some member.userId) →
      specStanding allMatches member =
        { userId := member.userId, wins := 0, losses := 0, winRate := 0 }) := by
  refine ⟨?_, ?_, ?_⟩
  · rw [getTournamentStandings_eq]
    exact List.perm_insertionSort _ _
  · rw [getTournamentStandings_eq]
    have htot : IsTotal Standing (fun a b => standingLE a b = true) := ⟨standingLE_total⟩
    have htr : IsTrans Standing (fun a b => standingLE a b = true) := ⟨standingLE_trans⟩
    have hs := List.sorted_insertionSort (fun a b => standingLE a b = true)
      (members.map (specStanding allMatches))
    exact hs.imp fun {a b} h => (standingLE_iff a b).mp h
  · intro member _ hnone
    have hw : specWins member.userId allMatches = 0 := by
      unfold specWins
      rw [List.length_eq_zero]
      refine List.filter_eq_nil_iff.mpr fun m hm => ?_
      by_cases hst : m.status = MatchStatus.completed
      · have := (hnone m hm hst).2.2
        simp [hst, this]
      · simp [hst]
    have hl : specLosses member.userId allMatches = 0 := by
      unfold specLosses
      rw [List.length_eq_zero]
      refine List.filter_eq_nil_iff.mpr fun m hm => ?_
      by_cases hst : m.status = MatchStatus.completed
      · have h1 := (hnone m hm hst).1
        have h2 := (hnone m hm hst).2.1
        simp [hst, h1, h2]
      · simp [hst]
    unfold specStanding
    rw [hw, hl]
    simp [specWinRate]

/-- C9.  Under the invariant that every completed match's winner is one
of its two players, each participant's `wins + losses` computed by
`getStandings` is at most the number of completed matches in which the
participant appears as `player1Id` or `player2Id`. -/
theorem getStandings_wins_losses_bounded (members : List MemberRec)
    (allMatches : List Match)
    (hvalid : ∀ m ∈ allMatches, m.status = MatchStatus.completed →
      matchWinner m = m.player1Id ∨ matchWinner m = m.player2Id) :
    ∀ s ∈ getTournamentStandings members allMatches,
      s.wins + s.losses ≤ completedAppearances s.userId allMatches := by
  intro s hs
  rw [getTournamentStandings_eq] at hs
  have hs' := (List.perm_insertionSort (fun a b => standingLE a b = true)
    (members.map (specStanding allMatches))).mem_iff.mp hs
  obtain ⟨member, _, rfl⟩ := List.mem_map.mp hs'
  exact specWins_add_specLosses_le member.userId allMatches hvalid

/-! ## Witnesses: each hypothesis-bearing claim theorem applied to concrete
sample data -/

/-- Witness for C1 on a pool of 7 members: 3 paired matches, 1 bye, 3 rounds. -/
theorem generateBracket_round1_counts_and_total_rounds_witness :
    sampleLeague.tournamentFormat = "single_elimination" ∧
    generateBracketMatches (some "owner1") (some sampleLeague) []
        sampleMembers sampleMembers =
      .ok (buildMatches "single_elimination" sampleMembers) ∧
    (2 ≤ sampleMembers.length ∧
     ((buildMatches "single_elimination" sampleMembers).filter
        fun m => m.round = 1 ∧ m.player2Id ≠ none).length = sampleMembers.length / 2 ∧
     ((buildMatches "single_elimination" sampleMembers).filter
        fun m => m.round = 1 ∧ m.player2Id = none).length =
       sampleMembers.length - 2 * (sampleMembers.length / 2) ∧
     maxRound (buildMatches "single_elimination" sampleMembers) =
       Nat.clog 2 sampleMembers.length) :=
  ⟨rfl, rfl,
    generateBracket_round1_counts_and_total_rounds "owner1" sampleLeague []
      sampleMembers sampleMembers _ rfl (List.Perm.refl _) rfl⟩

/-- Witness for C7 on a pool of 7 members. -/
theorem generateBracket_unique_final_witness :
    sampleLeague.tournamentFormat = "single_elimination" ∧
    (((buildMatches "single_elimination" sampleMembers).filter
        fun m => m.round = maxRound (buildMatches "single_elimination" sampleMembers)).length
      = 1 ∧
     (sampleMembers.length = 2 →
      (buildMatches "single_elimination" sampleMembers).length = 1 ∧
        maxRound (buildMatches "single_elimination" sampleMembers) = 1)) :=
  ⟨rfl,
    generateBracket_unique_final "owner1" sampleLeague [] sampleMembers sampleMembers _
      rfl (List.Perm.refl _) rfl⟩

/-- Witness for C8 on a pool of 7 members. -/
theorem generateBracket_seeding_permutation_witness :
    round1Slots (buildMatches "single_elimination" sampleMembers) =
      sampleMembers.map MemberRec.userId ∧
    (round1Slots (buildMatches "single_elimination" sampleMembers)).Perm
      (sampleMembers.map MemberRec.userId) :=
  generateBracket_seeding_permutation "owner1" sampleLeague [] sampleMembers
    sampleMembers _ (List.Perm.refl _) rfl

/-- Witness for the amended C2 on a two-member double-elimination league. -/
theorem generateBracket_format_handling_witness :
    (sampleLeagueDouble.ownerId = "owner1" ∨ "owner1" ∈ sampleLeagueDouble.admins) ∧
    ((sampleLeagueDouble.tournamentFormat ≠ "single_elimination" →
      sampleLeagueDouble.tournamentFormat ≠ "double_elimination" →
      generateBracketMatches (some "owner1") (some sampleLeagueDouble) []
          samplePair samplePair = .error .unsupportedFormat) ∧
     (sampleLeagueDouble.tournamentFormat = "double_elimination" → ([] : List Match) = [] →
      2 ≤ samplePair.length → samplePair.length = samplePair.length →
      ∃ ms, generateBracketMatches (some "owner1") (some sampleLeagueDouble) []
          samplePair samplePair = .ok ms ∧ ms ≠ [] ∧ ∀ m ∈ ms, m.round = 1)) :=
  ⟨Or.inl rfl,
    generateBracket_format_handling "owner1" sampleLeagueDouble [] samplePair samplePair
      (Or.inl rfl)⟩

/-- Witness for C4 on a two-member single-elimination league. -/
theorem generateBracket_already_generated_witness :
    (sampleLeague.ownerId = "owner1" ∨ "owner1" ∈ sampleLeague.admins) ∧
    (sampleLeague.tournamentFormat = "single_elimination" ∨
      sampleLeague.tournamentFormat = "double_elimination") ∧
    ((∀ store : List Match, store ≠ [] →
      generateBracketMatches (some "owner1") (some sampleLeague) store
          samplePair samplePair = .error .alreadyGenerated) ∧
     (∀ ms, generateBracketMatches (some "owner1") (some sampleLeague) []
          samplePair samplePair = .ok ms →
      ms ≠ [] ∧
      generateBracketMatches (some "owner1") (some sampleLeague) ms
          samplePair samplePair = .error .alreadyGenerated)) :=
  ⟨Or.inl rfl, Or.inl rfl,
    generateBracket_already_generated "owner1" sampleLeague samplePair samplePair
      samplePair (Or.inl rfl) (Or.inl rfl) (List.Perm.refl _)⟩

/-- Witness for C5 on a concrete two-match store. -/
theorem getBracket_null_iff_and_content_witness :
    (getTournamentBracket sampleBracketMatches = none ↔ sampleBracketMatches = []) ∧
    (sampleBracket.matchList.Perm sampleBracketMatches ∧
     List.Sorted bracketOrder sampleBracket.matchList ∧
     (∀ m ∈ sampleBracketMatches, m.round ≤ sampleBracket.rounds) ∧
     (∃ m ∈ sampleBracketMatches, m.round = sampleBracket.rounds)) :=
  ⟨(getBracket_null_iff_and_content sampleBracketMatches).1,
    (getBracket_null_iff_and_content sampleBracketMatches).2 sampleBracket (by decide)⟩

/-- Witness for C3 on the same two-match store. -/
theorem getBracket_currentRound_eq_spec_witness :
    getTournamentBracket sampleBracketMatches = some sampleBracket ∧
    sampleBracket.currentRound = specCurrentRound sampleBracketMatches :=
  ⟨by decide,
    getBracket_currentRound_eq_spec sampleBracketMatches sampleBracket (by decide)⟩

/-- Witness for C10 on the same two-match store. -/
theorem getBracket_currentRound_in_range_witness :
    (∀ m ∈ sampleBracketMatches, 1 ≤ m.round) ∧
    (1 ≤ sampleBracket.currentRound ∧
     ((∀ m ∈ sampleBracketMatches, 1 ≤ m.round) →
       sampleBracket.currentRound ≤ sampleBracket.rounds)) :=
  ⟨by decide,
    getBracket_currentRound_in_range sampleBracketMatches sampleBracket (by decide)⟩

/-- Witness for C6: three members, two completed matches, one member with no
completed appearances. -/
theorem getStandings_characterisation_witness :
    (getTournamentStandings sampleStandingMembers sampleStandingMatches).Perm
      (sampleStandingMembers.map (specStanding sampleStandingMatches)) ∧
    List.Sorted standingOrder
      (getTournamentStandings sampleStandingMembers sampleStandingMatches) ∧
    specStanding sampleStandingMatches ⟨"p3"⟩ =
      { userId := "p3", wins := 0, losses := 0, winRate := 0 } :=
  ⟨(getStandings_characterisation sampleStandingMembers sampleStandingMatches).1,
    (getStandings_characterisation sampleStandingMembers sampleStandingMatches).2.1,
    (getStandings_characterisation sampleStandingMembers sampleStandingMatches).2.2
      ⟨"p3"⟩ (by decide) (by decide)⟩

/-- Witness for C9 on the same standings data. -/
theorem getStandings_wins_losses_bounded_witness :
    (∀ m ∈ sampleStandingMatches, m.status = MatchStatus.completed →
      matchWinner m = m.player1Id ∨ matchWinner m = m.player2Id) ∧
    ∀ s ∈ getTournamentStandings sampleStandingMembers sampleStandingMatches,
      s.wins + s.losses ≤ completedAppearances s.userId sampleStandingMatches :=
  ⟨by decide,
    getStandings_wins_losses_bounded sampleStandingMembers sampleStandingMatches
      (by decide)⟩

end Tournaments
